import Mathlib

/-!
# Verification of the gh-gl-create-refs fetch pipeline

Shallow embedding of the core of `github.com/amenocal/gh-gl-create-refs`:

* the rate governor (`rateLimitWait` / `checkRateLimitHeaders`,
  src/pkg/gitlab/client.go),
* the paginated fetch loop (`FetchMergeRequestRefs`, src/pkg/gitlab/client.go),
* the CSV record codec (`WriteRefsToFile` / `ReadRefsFromFile`,
  src/pkg/csv/writer.go).

Times and durations are modelled as `Int` nanoseconds (Go `time.Time`,
`time.Duration`).  Blocking sleeps are modelled as explicit outputs: a
function that in Go calls `time.Sleep d` here returns `d` alongside its
state change.  HTTP responses are modelled by the status code and the
header fields the code reads.
-/

namespace GlRefs

/-- One nanosecond-denominated millisecond, as in Go `time.Millisecond`. -/
def millisecond : Int := 1000000

/-- One nanosecond-denominated second, as in Go `time.Second`. -/
def second : Int := 1000000000

/-! ## Decimal integers: `strconv.Atoi` and `strconv.Itoa` -/

/-- Numeric value of a decimal digit character, `none` on a non-digit. -/
def digitVal (c : Char) : Option Nat :=
  if 48 ≤ c.toNat ∧ c.toNat ≤ 57 then some (c.toNat - 48) else none

/-- Accumulate a run of decimal digits left to right; any non-digit
character makes the whole parse fail, as in Go `strconv.Atoi`. -/
def parseDigits : List Char → Nat → Option Nat
  | [], acc => some acc
  | c :: cs, acc =>
    match digitVal c with
    | some d => parseDigits cs (acc * 10 + d)
    | none => none

/-- Model of Go `strconv.Atoi` on the character list of the string: an
optional sign followed by at least one decimal digit, nothing else. -/
def goAtoiL (s : List Char) : Option Int :=
  match s with
  | [] => none
  | c :: cs =>
    if c = '+' then
      if cs = [] then none else (parseDigits cs 0).map Int.ofNat
    else if c = '-' then
      if cs = [] then none else (parseDigits cs 0).map (fun n => -(n : Int))
    else
      (parseDigits (c :: cs) 0).map Int.ofNat

/-- Model of Go `strconv.Atoi`. -/
def goAtoi (s : String) : Option Int := goAtoiL s.data

/-- The decimal digit character for `d` (callers pass `d < 10`). -/
def digitChar (d : Nat) : Char :=
  match d with
  | 0 => '0' | 1 => '1' | 2 => '2' | 3 => '3' | 4 => '4'
  | 5 => '5' | 6 => '6' | 7 => '7' | 8 => '8' | _ => '9'

/-- Decimal digit string of a natural number, most significant first. -/
def natToDigits (n : Nat) : List Char :=
  if _h : n < 10 then [digitChar n]
  else natToDigits (n / 10) ++ [digitChar (n % 10)]
  decreasing_by exact Nat.div_lt_self (by omega) (by omega)

/-- Model of Go `strconv.Itoa` on character lists. -/
def itoa (n : Int) : List Char :=
  if n < 0 then '-' :: natToDigits (-n).toNat else natToDigits n.toNat

/-! ## HTTP responses (the parts the client reads) -/

/-- The response headers read by `checkRateLimitHeaders`; `none` models an
absent header (Go `Header.Get` then returns the empty string). -/
structure HttpHeaders where
  rateLimitRemaining : Option String
  rateLimitResetTime : Option String
  xRateLimitRemaining : Option String
  xRateLimitReset : Option String
  retryAfter : Option String
deriving DecidableEq, Repr

/-- Go `http.Header.Get`: the empty string when the header is absent. -/
def headerGet (h : Option String) : String := h.getD ""

/-- The part of `http.Response` the client inspects. -/
structure HttpResponse where
  statusCode : Int
  header : HttpHeaders
deriving DecidableEq, Repr

/-! ## Client state (rate governor) -/

/-- The mutable fields of `gitlab.Client` that the rate governor owns:
`lastRequestTime` (`none` models the zero `time.Time`) and `minInterval`. -/
structure ClientState where
  lastRequestTime : Option Int
  minInterval : Int
deriving DecidableEq, Repr

/-- The state `NewClient` installs: zero `lastRequestTime` and a
conservative 100ms `minInterval` (client.go lines 49-52). -/
def initialClientState : ClientState :=
  { lastRequestTime := none, minInterval := 100 * millisecond }

/-- Model of `rateLimitWait` (client.go lines 56-67).  `now` is the
`time.Now()` read on entry; `now2` is the `time.Now()` read after the
(possible) sleep, which the code stores unconditionally.  The first
component is the duration passed to `time.Sleep` (0 when no sleep
happens). -/
def rateLimitWait (st : ClientState) (now now2 : Int) : Int × ClientState :=
  let sleepDuration : Int :=
    match st.lastRequestTime with
    | none => 0
    | some t =>
      let elapsed := now - t
      if elapsed < st.minInterval then st.minInterval - elapsed else 0
  (sleepDuration, { st with lastRequestTime := some now2 })

/-- The effective remaining-quota header string: the primary
`RateLimit-Remaining` name, falling back to `X-RateLimit-Remaining` when
the primary is empty (client.go lines 76-82). -/
def effectiveRemaining (r : HttpResponse) : String :=
  let rlr := headerGet r.header.rateLimitRemaining
  if rlr = "" then headerGet r.header.xRateLimitRemaining else rlr

/-- Model of `checkRateLimitHeaders` (client.go lines 70-117).  The input
response is `Option`al because the Go receiver checks `resp == nil`.
Returns the updated state and the duration handed to `time.Sleep` for the
status-429 hard stop (`none` when no hard stop fires).  Note the source's
escalation ladder: `remaining <= 10` is tested first, so the
`remaining <= 5` arm can never be reached. -/
def checkRateLimitHeaders (st : ClientState) (resp : Option HttpResponse) :
    ClientState × Option Int :=
  match resp with
  | none => (st, none)
  | some r =>
    let rateLimitRemaining := effectiveRemaining r
    let st1 : ClientState :=
      if rateLimitRemaining ≠ "" then
        match goAtoi rateLimitRemaining with
        | some remaining =>
          if remaining ≤ 10 then { st with minInterval := 1 * second }
          else if remaining ≤ 5 then { st with minInterval := 5 * second }
          else st
        | none => st
      else st
    let sleep : Option Int :=
      if r.statusCode = 429 then
        let retryAfter := headerGet r.header.retryAfter
        if retryAfter ≠ "" then
          match goAtoi retryAfter with
          | some seconds => some (seconds * second)
          | none => some (60 * second)
        else some (60 * second)
      else none
    (st1, sleep)

/-- The state after a whole sequence of `afterResponse` calls. -/
def afterResponses (st : ClientState) (resps : List (Option HttpResponse)) :
    ClientState :=
  resps.foldl (fun s r => (checkRateLimitHeaders s r).1) st

/-! ## Governor lemmas -/

/-- The state component of `checkRateLimitHeaders`, with the `let`
bindings of the source spelled out. -/
theorem checkRateLimitHeaders_fst (st : ClientState) (r : HttpResponse) :
    (checkRateLimitHeaders st (some r)).1 =
      (if effectiveRemaining r ≠ "" then
        match goAtoi (effectiveRemaining r) with
        | some remaining =>
          if remaining ≤ 10 then { st with minInterval := 1 * second }
          else if remaining ≤ 5 then { st with minInterval := 5 * second }
          else st
        | none => st
      else st) := rfl

/-- The hard-stop sleep component of `checkRateLimitHeaders`. -/
theorem checkRateLimitHeaders_snd (st : ClientState) (r : HttpResponse) :
    (checkRateLimitHeaders st (some r)).2 =
      (if r.statusCode = 429 then
        if headerGet r.header.retryAfter ≠ "" then
          match goAtoi (headerGet r.header.retryAfter) with
          | some seconds => some (seconds * second)
          | none => some (60 * second)
        else some (60 * second)
      else none) := rfl

/-- One `afterResponse` call either leaves the state alone or sets
`minInterval` to one second: the five-second arm sits behind
`remaining <= 10` being false while `remaining <= 5` holds, which no
integer satisfies, so it is unreachable. -/
theorem checkRateLimitHeaders_state_cases (st : ClientState)
    (resp : Option HttpResponse) :
    (checkRateLimitHeaders st resp).1 = st ∨
    (checkRateLimitHeaders st resp).1 = { st with minInterval := 1 * second } := by
  cases resp with
  | none => exact Or.inl rfl
  | some r =>
    rw [checkRateLimitHeaders_fst]
    split
    · split
      · split
        · exact Or.inr rfl
        · split
          · omega
          · exact Or.inl rfl
      · exact Or.inl rfl
    · exact Or.inl rfl

/-- `afterResponse` never touches `lastRequestTime`. -/
theorem checkRateLimitHeaders_lastRequestTime (st : ClientState)
    (resp : Option HttpResponse) :
    (checkRateLimitHeaders st resp).1.lastRequestTime = st.lastRequestTime := by
  rcases checkRateLimitHeaders_state_cases st resp with h | h <;> rw [h]

/-- Invariant of a run: starting at or below the one-second interval,
any sequence of `afterResponse` calls keeps `minInterval` at or below one
second and never decreases it. -/
theorem afterResponses_invariant (resps : List (Option HttpResponse)) :
    ∀ st : ClientState, st.minInterval ≤ 1 * second →
      (afterResponses st resps).minInterval ≤ 1 * second ∧
      st.minInterval ≤ (afterResponses st resps).minInterval := by
  induction resps with
  | nil => exact fun st h => ⟨h, le_refl _⟩
  | cons r rest ih =>
    intro st hst
    have hstep := checkRateLimitHeaders_state_cases st r
    have hrec : afterResponses st (r :: rest) =
        afterResponses (checkRateLimitHeaders st r).1 rest := rfl
    rcases hstep with h | h
    · rw [hrec, h]; exact ih st hst
    · rw [hrec, h]
      rcases ih { st with minInterval := 1 * second } (le_refl _) with ⟨h1, h2⟩
      exact ⟨h1, le_trans hst h2⟩

/-- C2: across any sequence of `afterResponse` calls
(`checkRateLimitHeaders`) within one run that starts at the state
`NewClient` installs, `minInterval` is non-decreasing: extending the
sequence of responses never lowers it, for every possible sequence of
response headers and status codes (`none` models a nil response). -/
theorem governor_minInterval_monotone (l₁ l₂ : List (Option HttpResponse)) :
    (afterResponses initialClientState l₁).minInterval ≤
      (afterResponses initialClientState (l₁ ++ l₂)).minInterval := by
  have hinit : initialClientState.minInterval ≤ 1 * second := by
    simp only [initialClientState, millisecond, second]; omega
  have h1 := afterResponses_invariant l₁ initialClientState hinit
  have happ : afterResponses initialClientState (l₁ ++ l₂) =
      afterResponses (afterResponses initialClientState l₁) l₂ := by
    simp only [afterResponses, List.foldl_append]
  rw [happ]
  exact (afterResponses_invariant l₂ _ h1.1).2

/-- A response reporting a remaining quota of 5, with no other signal. -/
def respQuota5 : HttpResponse :=
  { statusCode := 200,
    header := { rateLimitRemaining := some "5", rateLimitResetTime := none,
                xRateLimitRemaining := none, xRateLimitReset := none,
                retryAfter := none } }

/-- C1 (code bug): a remaining quota of 5 is supposed to escalate
`minInterval` to the critical five-second tier, but the source tests
`remaining <= 10` first, so the five-second arm is dead code: the call
sets `minInterval` to the moderate one-second tier instead, and no
reachable call ever produces the five-second interval from a state that
does not already have it. -/
theorem quota5_reaches_moderate_not_critical_tier :
    (checkRateLimitHeaders initialClientState (some respQuota5)).1.minInterval
        = 1 * second ∧
    (checkRateLimitHeaders initialClientState (some respQuota5)).1.minInterval
        ≠ 5 * second ∧
    ∀ (st : ClientState) (resp : Option HttpResponse),
      (checkRateLimitHeaders st resp).1 = st ∨
      (checkRateLimitHeaders st resp).1 = { st with minInterval := 1 * second } := by
  refine ⟨by decide, by decide, checkRateLimitHeaders_state_cases⟩

/-- The same response with a different status code and `Retry-After`
value: everything the quota-escalation path reads is kept. -/
def withStatusAndRetry (r : HttpResponse) (sc : Int) (ra : Option String) :
    HttpResponse :=
  { statusCode := sc, header := { r.header with retryAfter := ra } }

/-- C6: on a status-429 response, `afterResponse` performs one blocking
sleep: exactly the parsed `Retry-After` value in seconds when that header
is present and parses, and a fixed 60-second default when it is absent;
the sleep does not depend on the governor's state, and the resulting
state does not depend on the status code or the `Retry-After` header. -/
theorem status429_hard_stop (st : ClientState) (r : HttpResponse)
    (h429 : r.statusCode = 429) :
    (∀ k : Int, headerGet r.header.retryAfter ≠ "" →
        goAtoi (headerGet r.header.retryAfter) = some k →
        (checkRateLimitHeaders st (some r)).2 = some (k * second)) ∧
    ((headerGet r.header.retryAfter = "") →
        (checkRateLimitHeaders st (some r)).2 = some (60 * second)) ∧
    (∀ st2 : ClientState,
        (checkRateLimitHeaders st (some r)).2 =
        (checkRateLimitHeaders st2 (some r)).2) ∧
    (∀ (sc : Int) (ra : Option String),
        (checkRateLimitHeaders st (some (withStatusAndRetry r sc ra))).1 =
        (checkRateLimitHeaders st (some r)).1) := by
  refine ⟨?_, ?_, ?_, ?_⟩
  · intro k hne hparse
    rw [checkRateLimitHeaders_snd, if_pos h429, if_pos hne, hparse]
  · intro habs
    rw [checkRateLimitHeaders_snd, if_pos h429,
      if_neg (by simp [habs])]
  · intro st2
    rfl
  · intro sc ra
    rfl

/-- The spec scenario for C6: status 429 with `Retry-After: 3`. -/
def respRetry3 : HttpResponse :=
  { statusCode := 429,
    header := { rateLimitRemaining := none, rateLimitResetTime := none,
                xRateLimitRemaining := none, xRateLimitReset := none,
                retryAfter := some "3" } }

/-- Witness for C6: with status 429 and `Retry-After: 3` the governor
sleeps exactly 3 seconds. -/
theorem status429_hard_stop_witness :
    (checkRateLimitHeaders initialClientState (some respRetry3)).2 =
      some (3 * second) :=
  (status429_hard_stop initialClientState respRetry3 rfl).1 3 (by decide)
    (by decide)

/-- C7: `beforeRequest` (`rateLimitWait`) performs no wait on the first
call; otherwise, when less than `minInterval` has elapsed since
`lastRequestTime`, it sleeps exactly the remaining difference; it always
records the post-sleep clock reading as the new `lastRequestTime`; and
two consecutive calls with no intervening escalation leave request-start
stamps at least `minInterval` apart.  `now` is the entry clock reading,
`now2` the one taken when the new `lastRequestTime` is stored, so the
timing hypotheses say the sleep really lasted at least its duration. -/
theorem rateLimitWait_spec (st : ClientState) :
    (∀ now now2 : Int, st.lastRequestTime = none →
        (rateLimitWait st now now2).1 = 0) ∧
    (∀ t now now2 : Int, st.lastRequestTime = some t →
        now - t < st.minInterval →
        (rateLimitWait st now now2).1 = st.minInterval - (now - t)) ∧
    (∀ now now2 : Int,
        ((rateLimitWait st now now2).2).lastRequestTime = some now2) ∧
    (∀ t1 t1' t2 t2' : Int,
        t1' ≥ t1 + (rateLimitWait st t1 t1').1 →
        t2' ≥ t2 + (rateLimitWait (rateLimitWait st t1 t1').2 t2 t2').1 →
        t2' - t1' ≥ ((rateLimitWait st t1 t1').2).minInterval) := by
  refine ⟨?_, ?_, ?_, ?_⟩
  · intro now now2 h
    simp only [rateLimitWait, h]
  · intro t now now2 h hlt
    simp only [rateLimitWait, h, hlt, if_pos]
  · intro now now2
    simp only [rateLimitWait]
  · intro t1 t1' t2 t2' _h1 h2
    simp only [rateLimitWait] at h2 ⊢
    split at h2
    · omega
    · omega

/-- A governor state stamped at time 0 with the baseline interval. -/
def stampedState : ClientState :=
  { lastRequestTime := some 0, minInterval := 100 * millisecond }

/-- Witness for C7, exercising each conjunct at concrete times: a first
call waits nothing; a call 40ms after the previous one waits the
remaining 60ms; the new stamp is the post-sleep reading; and two calls
50ms apart end up with stamps a full 100ms interval apart. -/
theorem rateLimitWait_spec_witness :
    (rateLimitWait initialClientState 5 7).1 = 0 ∧
    (rateLimitWait stampedState (40 * millisecond)
        (100 * millisecond)).1 = 60 * millisecond ∧
    ((rateLimitWait initialClientState 5 7).2).lastRequestTime = some 7 ∧
    (100 * millisecond : Int) - 0 ≥
      ((rateLimitWait initialClientState 0 0).2).minInterval := by
  refine ⟨(rateLimitWait_spec initialClientState).1 5 7 rfl, ?_, ?_, ?_⟩
  · have := (rateLimitWait_spec stampedState).2.1 0 (40 * millisecond)
        (100 * millisecond) rfl (by decide)
    rw [this]; decide
  · exact (rateLimitWait_spec initialClientState).2.2.1 5 7
  · exact (rateLimitWait_spec initialClientState).2.2.2 0 0
      (50 * millisecond) (100 * millisecond) (by decide) (by decide)

/-- C9: a nil response, an absent remaining-quota header (under both
names), or one that does not parse as a decimal integer leaves the
governor state untouched: no escalation and no error. -/
theorem quota_signal_missing_frame (st : ClientState)
    (resp : Option HttpResponse) :
    (resp = none → (checkRateLimitHeaders st resp).1 = st) ∧
    (∀ r : HttpResponse, resp = some r → effectiveRemaining r = "" →
        (checkRateLimitHeaders st resp).1 = st) ∧
    (∀ r : HttpResponse, resp = some r →
        goAtoi (effectiveRemaining r) = none →
        (checkRateLimitHeaders st resp).1 = st) := by
  refine ⟨?_, ?_, ?_⟩
  · intro h; rw [h]; rfl
  · intro r hr habs
    rw [hr, checkRateLimitHeaders_fst, if_neg (by simp [habs])]
  · intro r hr hparse
    rw [hr, checkRateLimitHeaders_fst]
    by_cases habs : effectiveRemaining r = ""
    · rw [if_neg (by simp [habs])]
    · rw [if_pos habs, hparse]

/-- A response whose remaining-quota header does not parse. -/
def respBadQuota : HttpResponse :=
  { statusCode := 200,
    header := { rateLimitRemaining := some "plenty", rateLimitResetTime := none,
                xRateLimitRemaining := none, xRateLimitReset := none,
                retryAfter := none } }

/-- Witness for C9: a malformed remaining-quota header changes nothing. -/
theorem quota_signal_missing_frame_witness :
    (checkRateLimitHeaders initialClientState (some respBadQuota)).1 =
      initialClientState :=
  (quota_signal_missing_frame initialClientState (some respBadQuota)).2.2
    respBadQuota rfl (by decide)

/-! ## Merge request records -/

/-- `MergeRequestRef` (client.go lines 24-28). -/
structure MergeRequestRef where
  id : Int
  iid : Int
  headSHA : String
deriving DecidableEq, Repr

/-! ## CSV codec

Models `WriteRefsToFile` and `ReadRefsFromFile` (pkg/csv/writer.go) on top
of Go `encoding/csv` with its default configuration (comma separator,
`UseCRLF` off, `LazyQuotes` off, `FieldsPerRecord` inferred from the first
record).  Files are modelled as their character lists. -/

/-- Go `unicode.IsSpace`, used by the writer on a field's first rune;
spelled on the rune's code point (9-13 and 32 are the ASCII white space
characters, the rest the Unicode space runes Go lists). -/
def isGoSpace (c : Char) : Bool :=
  c.toNat == 32 || c.toNat == 9 || c.toNat == 10 || c.toNat == 11 ||
  c.toNat == 12 || c.toNat == 13 || c.toNat == 0x85 || c.toNat == 0xA0 ||
  c.toNat == 0x1680 || (0x2000 ≤ c.toNat && c.toNat ≤ 0x200A) ||
  c.toNat == 0x2028 || c.toNat == 0x2029 || c.toNat == 0x202F ||
  c.toNat == 0x205F || c.toNat == 0x3000

/-- Go `csv.Writer.fieldNeedsQuotes` with the default comma separator:
quote the PostgreSQL terminator, any field holding a separator, quote or
line-break character, and any field starting with white space. -/
def fieldNeedsQuotes (f : List Char) : Bool :=
  match f with
  | [] => false
  | c :: _ =>
    if f = ['\\', '.'] then true
    else if f.any (fun x => x == ',' || x == '"' || x == '\r' || x == '\n')
      then true
    else isGoSpace c

/-- Quote doubling inside a quoted field (Go writer, `UseCRLF` off:
carriage returns and line feeds are copied through unchanged). -/
def escapeQuotes : List Char → List Char
  | [] => []
  | c :: cs =>
    if c = '"' then '"' :: '"' :: escapeQuotes cs else c :: escapeQuotes cs

/-- One encoded field. -/
def writeField (f : List Char) : List Char :=
  if fieldNeedsQuotes f then '"' :: (escapeQuotes f ++ ['"']) else f

/-- The comma-joined fields of one record. -/
def writeRecordFields : List (List Char) → List Char
  | [] => []
  | [f] => writeField f
  | f :: rest => writeField f ++ ',' :: writeRecordFields rest

/-- One encoded record: fields joined by commas, a line feed after. -/
def writeRecord (fs : List (List Char)) : List Char :=
  writeRecordFields fs ++ ['\n']

/-- The encoded file: one line per record, no header. -/
def csvWrite (recs : List (List (List Char))) : List Char :=
  (recs.map writeRecord).flatten

/-- Scanner mode of the reader: before a field, inside a bare field, or
inside a quoted field. -/
inductive CsvMode where
  | fieldStart
  | inBare
  | inQuoted
deriving DecidableEq, Repr

/-- Go `csv.Reader` record scanner (defaults, `LazyQuotes` off):
fields split on commas, records on line feeds (a carriage-return /
line-feed pair counts as one line end), blank lines skipped, quoted
fields with doubled-quote escapes, a quote inside a bare field and a
stray quote after a closing quote rejected, end of input inside an open
quoted field rejected.  `fa` is the reversed current field, `recAcc` the
reversed fields of the current record, `recs` the reversed finished
records. -/
def csvScan : List Char → CsvMode → List Char → List (List Char) →
    List (List (List Char)) → Except String (List (List (List Char))) :=
  fun cs mode fa recAcc recs =>
  match mode, cs with
  | .fieldStart, [] =>
    match recAcc with
    | [] => .ok recs.reverse
    | _ => .ok (((([] : List Char) :: recAcc).reverse :: recs).reverse)
  | .fieldStart, '\r' :: '\n' :: rest =>
    match recAcc with
    | [] => csvScan rest .fieldStart [] [] recs
    | _ => csvScan rest .fieldStart [] []
        ((([] : List Char) :: recAcc).reverse :: recs)
  | .fieldStart, '\n' :: rest =>
    match recAcc with
    | [] => csvScan rest .fieldStart [] [] recs
    | _ => csvScan rest .fieldStart [] []
        ((([] : List Char) :: recAcc).reverse :: recs)
  | .fieldStart, ',' :: rest =>
    csvScan rest .fieldStart [] (([] : List Char) :: recAcc) recs
  | .fieldStart, '"' :: rest =>
    csvScan rest .inQuoted [] recAcc recs
  | .fieldStart, c :: rest =>
    csvScan rest .inBare [c] recAcc recs
  | .inBare, [] =>
    .ok (((fa.reverse :: recAcc).reverse :: recs).reverse)
  | .inBare, ',' :: rest =>
    csvScan rest .fieldStart [] (fa.reverse :: recAcc) recs
  | .inBare, '\r' :: '\n' :: rest =>
    csvScan rest .fieldStart [] [] ((fa.reverse :: recAcc).reverse :: recs)
  | .inBare, '\n' :: rest =>
    csvScan rest .fieldStart [] [] ((fa.reverse :: recAcc).reverse :: recs)
  | .inBare, '"' :: _ =>
    .error "bare \" in non-quoted-field"
  | .inBare, c :: rest =>
    csvScan rest .inBare (c :: fa) recAcc recs
  | .inQuoted, [] =>
    .error "extraneous or missing \" in quoted-field"
  | .inQuoted, '"' :: ',' :: rest =>
    csvScan rest .fieldStart [] (fa.reverse :: recAcc) recs
  | .inQuoted, '"' :: '\r' :: '\n' :: rest =>
    csvScan rest .fieldStart [] [] ((fa.reverse :: recAcc).reverse :: recs)
  | .inQuoted, '"' :: '\n' :: rest =>
    csvScan rest .fieldStart [] [] ((fa.reverse :: recAcc).reverse :: recs)
  | .inQuoted, '"' :: '"' :: rest =>
    csvScan rest .inQuoted ('"' :: fa) recAcc recs
  | .inQuoted, ['"'] =>
    .ok (((fa.reverse :: recAcc).reverse :: recs).reverse)
  | .inQuoted, '"' :: _ :: _ =>
    .error "extraneous or missing \" in quoted-field"
  | .inQuoted, '\r' :: '\n' :: rest =>
    csvScan rest .inQuoted ('\n' :: fa) recAcc recs
  | .inQuoted, c :: rest =>
    csvScan rest .inQuoted (c :: fa) recAcc recs

/-- Go `csv.Reader.ReadAll` with `FieldsPerRecord = 0`: scan all records,
then require every record to have as many fields as the first. -/
def csvReadAll (cs : List Char) : Except String (List (List (List Char))) :=
  match csvScan cs .fieldStart [] [] [] with
  | .error e => .error e
  | .ok recs =>
    match recs with
    | [] => .ok []
    | r0 :: rest =>
      if rest.all (fun r => r.length == r0.length) then .ok (r0 :: rest)
      else .error "wrong number of fields"

/-- Model of `WriteRefsToFile` (writer.go lines 35-60): for each record
one CSV line holding `strconv.Itoa(ref.IID)` and `ref.HeadSHA`, in that
order; the file-creation step is dropped, the produced bytes are the
result. -/
def writeRefsToFile (refs : List MergeRequestRef) : List Char :=
  csvWrite (refs.map (fun r => [itoa r.iid, r.headSHA.data]))

/-- The record-to-ref loop of `ReadRefsFromFile` (writer.go lines
147-162): each record must have exactly two columns, the first must parse
as an integer; the built ref leaves `ID` at the zero value.  `i` is the
0-based index of the first record, used in error messages. -/
def refsFromRecords : Nat → List (List (List Char)) →
    Except String (List MergeRequestRef)
  | _, [] => .ok []
  | i, r :: rest =>
    match r with
    | [f0, f1] =>
      match goAtoiL f0 with
      | none => .error ("invalid merge request IID at line " ++
          String.mk (itoa (Int.ofNat (i + 1))))
      | some iid =>
        match refsFromRecords (i + 1) rest with
        | .error e => .error e
        | .ok refs =>
          .ok ({ id := 0, iid := iid, headSHA := String.mk f1 } :: refs)
    | _ => .error ("invalid CSV format at line " ++
        String.mk (itoa (Int.ofNat (i + 1))) ++ ": expected 2 columns, got " ++
        String.mk (itoa (Int.ofNat r.length)))

/-- Model of `ReadRefsFromFile` (writer.go lines 134-165) on the file's
character list. -/
def readRefsFromFile (content : List Char) :
    Except String (List MergeRequestRef) :=
  match csvReadAll content with
  | .error e => .error ("failed to read CSV file: " ++ e)
  | .ok records => refsFromRecords 0 records

/-! ## Decimal codec lemmas -/

theorem natToDigits_mem_digit {n : Nat} {c : Char} (h : c ∈ natToDigits n) :
    48 ≤ c.toNat ∧ c.toNat ≤ 57 := by
  induction n using Nat.strong_induction_on with
  | _ n ih =>
    by_cases h10 : n < 10
    · rw [natToDigits, dif_pos h10] at h
      rcases List.mem_singleton.mp h with rfl
      interval_cases n <;> simp [digitChar]
    · rw [natToDigits, dif_neg h10] at h
      rcases List.mem_append.mp h with h1 | h1
      · exact ih (n / 10) (Nat.div_lt_self (by omega) (by omega)) h1
      · rcases List.mem_singleton.mp h1 with rfl
        have : n % 10 < 10 := Nat.mod_lt _ (by omega)
        interval_cases h : n % 10 <;> simp [digitChar]

theorem natToDigits_ne_nil (n : Nat) : natToDigits n ≠ [] := by
  rw [natToDigits]
  split
  · simp
  · simp

theorem digitVal_digitChar {d : Nat} (h : d < 10) :
    digitVal (digitChar d) = some d := by
  interval_cases d <;> decide

theorem parseDigits_append (xs ys : List Char) (acc : Nat) :
    parseDigits (xs ++ ys) acc =
      match parseDigits xs acc with
      | some a => parseDigits ys a
      | none => none := by
  induction xs generalizing acc with
  | nil => rfl
  | cons c cs ih =>
    simp only [List.cons_append, parseDigits]
    cases digitVal c with
    | none => rfl
    | some d => exact ih _

theorem parseDigits_natToDigits (n : Nat) :
    parseDigits (natToDigits n) 0 = some n := by
  induction n using Nat.strong_induction_on with
  | _ n ih =>
    by_cases h10 : n < 10
    · rw [natToDigits, dif_pos h10]
      simp [parseDigits, digitVal_digitChar h10]
    · rw [natToDigits, dif_neg h10]
      rw [parseDigits_append]
      rw [ih (n / 10) (Nat.div_lt_self (by omega) (by omega))]
      have hm : n % 10 < 10 := Nat.mod_lt _ (by omega)
      simp only [parseDigits, digitVal_digitChar hm]
      have := Nat.div_add_mod n 10
      congr 1
      omega

theorem itoa_mem {z : Int} {c : Char} (h : c ∈ itoa z) :
    (48 ≤ c.toNat ∧ c.toNat ≤ 57) ∨ c = '-' := by
  rw [itoa] at h
  split at h
  · rcases List.mem_cons.mp h with rfl | h1
    · exact Or.inr rfl
    · exact Or.inl (natToDigits_mem_digit h1)
  · exact Or.inl (natToDigits_mem_digit h)

theorem itoa_ne_nil (z : Int) : itoa z ≠ [] := by
  rw [itoa]
  split
  · simp
  · exact natToDigits_ne_nil _

theorem goAtoiL_itoa (z : Int) : goAtoiL (itoa z) = some z := by
  by_cases hz : z < 0
  · rw [itoa, if_pos hz]
    have hne := natToDigits_ne_nil (-z).toNat
    simp [goAtoiL, hne, parseDigits_natToDigits]
    omega
  · rw [itoa, if_neg hz]
    cases hnd : natToDigits z.toNat with
    | nil => exact absurd hnd (natToDigits_ne_nil _)
    | cons c cs =>
      have hc : 48 ≤ c.toNat ∧ c.toNat ≤ 57 :=
        natToDigits_mem_digit (hnd ▸ List.mem_cons_self c cs)
      have hplus : c ≠ '+' := by
        intro hcp; rw [hcp] at hc; exact absurd hc (by decide)
      have hminus : c ≠ '-' := by
        intro hcp; rw [hcp] at hc; exact absurd hc (by decide)
      simp only [goAtoiL]
      rw [if_neg hplus, if_neg hminus, ← hnd, parseDigits_natToDigits]
      simp
      omega

/-! ## Writer lemmas -/

theorem escapeQuotes_of_no_quote {f : List Char} (h : ∀ c ∈ f, c ≠ '"') :
    escapeQuotes f = f := by
  induction f with
  | nil => rfl
  | cons c cs ih =>
    rw [escapeQuotes, if_neg (h c (List.mem_cons_self c cs)),
      ih (fun x hx => h x (List.mem_cons_of_mem c hx))]

/-- A field the writer leaves bare holds no separator, quote or
line-break character. -/
theorem fieldNeedsQuotes_false_clean {f : List Char}
    (h : fieldNeedsQuotes f = false) :
    ∀ c ∈ f, c ≠ ',' ∧ c ≠ '"' ∧ c ≠ '\r' ∧ c ≠ '\n' := by
  intro c hc
  cases f with
  | nil => simp at hc
  | cons c0 cs =>
    rw [fieldNeedsQuotes] at h
    split at h
    · simp at h
    · split at h
      · simp at h
      · next hany =>
        simp only [Bool.not_eq_true] at hany
        rw [List.any_eq_false] at hany
        have h4 := hany c hc
        refine ⟨?_, ?_, ?_, ?_⟩ <;> (rintro rfl; exact h4 (by decide))

theorem isGoSpace_digit_or_minus {c : Char}
    (h : (48 ≤ c.toNat ∧ c.toNat ≤ 57) ∨ c = '-') : isGoSpace c = false := by
  rcases h with ⟨h1, h2⟩ | rfl
  · simp only [isGoSpace, Bool.or_eq_false_iff, beq_eq_false_iff_ne, ne_eq,
      Bool.and_eq_false_iff, decide_eq_false_iff_not, not_le]
    omega
  · decide

theorem fieldNeedsQuotes_itoa (z : Int) : fieldNeedsQuotes (itoa z) = false := by
  cases hnd : itoa z with
  | nil => rfl
  | cons c0 cs =>
    have hmem : ∀ x ∈ c0 :: cs, (48 ≤ x.toNat ∧ x.toNat ≤ 57) ∨ x = '-' :=
      fun x hx => itoa_mem (hnd ▸ hx)
    rw [fieldNeedsQuotes]
    have h1 : (c0 :: cs) ≠ ['\\', '.'] := by
      intro he
      have hbs : '\\' ∈ c0 :: cs := by rw [he]; simp
      rcases hmem _ hbs with hb | hb
      · revert hb; decide
      · exact absurd hb (by decide)
    rw [if_neg h1]
    have h2 : (c0 :: cs).any
        (fun x => x == ',' || x == '"' || x == '\r' || x == '\n') = false := by
      rw [List.any_eq_false]
      intro x hx
      have hx4 : x ≠ ',' ∧ x ≠ '"' ∧ x ≠ '\r' ∧ x ≠ '\n' := by
        rcases hmem x hx with hb | hb
        · refine ⟨?_, ?_, ?_, ?_⟩ <;> (rintro rfl; revert hb; decide)
        · subst hb
          exact ⟨by decide, by decide, by decide, by decide⟩
      simp [hx4.1, hx4.2.1, hx4.2.2.1, hx4.2.2.2]
    rw [h2]
    simp only [Bool.false_eq_true, if_false]
    exact isGoSpace_digit_or_minus (hmem c0 (List.mem_cons_self c0 cs))

/-- The chars of a bare-written `itoa` field: `writeField` is the
identity there. -/
theorem writeField_itoa (z : Int) : writeField (itoa z) = itoa z := by
  rw [writeField, fieldNeedsQuotes_itoa]
  simp

/-! ## Scanner lemmas -/

set_option maxHeartbeats 2000000 in
theorem csvScan_fieldStart_step (c : Char) (rest fa : List Char)
    (recAcc : List (List Char)) (recs : List (List (List Char)))
    (h1 : c ≠ ',') (h2 : c ≠ '"') (h3 : c ≠ '\r') (h4 : c ≠ '\n') :
    csvScan (c :: rest) .fieldStart fa recAcc recs =
      csvScan rest .inBare [c] recAcc recs := by
  rw [csvScan.eq_def]
  split <;> simp_all

set_option maxHeartbeats 2000000 in
theorem csvScan_inBare_step (c : Char) (rest fa : List Char)
    (recAcc : List (List Char)) (recs : List (List (List Char)))
    (h1 : c ≠ ',') (h2 : c ≠ '"') (h3 : c ≠ '\r') (h4 : c ≠ '\n') :
    csvScan (c :: rest) .inBare fa recAcc recs =
      csvScan rest .inBare (c :: fa) recAcc recs := by
  rw [csvScan.eq_def]
  split <;> simp_all

set_option maxHeartbeats 2000000 in
theorem csvScan_inQuoted_step (c : Char) (rest fa : List Char)
    (recAcc : List (List Char)) (recs : List (List (List Char)))
    (h2 : c ≠ '"') (hcr : ¬(c = '\r' ∧ rest.head? = some '\n')) :
    csvScan (c :: rest) .inQuoted fa recAcc recs =
      csvScan rest .inQuoted (c :: fa) recAcc recs := by
  rw [csvScan.eq_def]
  split <;> simp_all

theorem csvScan_fieldStart_comma (rest fa : List Char)
    (recAcc : List (List Char)) (recs : List (List (List Char))) :
    csvScan (',' :: rest) .fieldStart fa recAcc recs =
      csvScan rest .fieldStart [] (([] : List Char) :: recAcc) recs := rfl

theorem csvScan_fieldStart_newline_cons (rest fa g : List Char)
    (recAcc : List (List Char)) (recs : List (List (List Char))) :
    csvScan ('\n' :: rest) .fieldStart fa (g :: recAcc) recs =
      csvScan rest .fieldStart [] []
        ((([] : List Char) :: g :: recAcc).reverse :: recs) := rfl

theorem csvScan_fieldStart_quote (rest fa : List Char)
    (recAcc : List (List Char)) (recs : List (List (List Char))) :
    csvScan ('"' :: rest) .fieldStart fa recAcc recs =
      csvScan rest .inQuoted [] recAcc recs := rfl

theorem csvScan_inBare_comma (rest fa : List Char)
    (recAcc : List (List Char)) (recs : List (List (List Char))) :
    csvScan (',' :: rest) .inBare fa recAcc recs =
      csvScan rest .fieldStart [] (fa.reverse :: recAcc) recs := rfl

theorem csvScan_inBare_newline (rest fa : List Char)
    (recAcc : List (List Char)) (recs : List (List (List Char))) :
    csvScan ('\n' :: rest) .inBare fa recAcc recs =
      csvScan rest .fieldStart [] []
        ((fa.reverse :: recAcc).reverse :: recs) := rfl

theorem csvScan_inQuoted_close_comma (rest fa : List Char)
    (recAcc : List (List Char)) (recs : List (List (List Char))) :
    csvScan ('"' :: ',' :: rest) .inQuoted fa recAcc recs =
      csvScan rest .fieldStart [] (fa.reverse :: recAcc) recs := rfl

theorem csvScan_inQuoted_close_newline (rest fa : List Char)
    (recAcc : List (List Char)) (recs : List (List (List Char))) :
    csvScan ('"' :: '\n' :: rest) .inQuoted fa recAcc recs =
      csvScan rest .fieldStart [] []
        ((fa.reverse :: recAcc).reverse :: recs) := rfl

theorem csvScan_bare_run (f : List Char)
    (hf : ∀ c ∈ f, c ≠ ',' ∧ c ≠ '"' ∧ c ≠ '\r' ∧ c ≠ '\n') :
    ∀ (rest fa : List Char) (recAcc : List (List Char))
      (recs : List (List (List Char))),
      csvScan (f ++ rest) .inBare fa recAcc recs =
        csvScan rest .inBare (f.reverse ++ fa) recAcc recs := by
  induction f with
  | nil => intro rest fa recAcc recs; simp
  | cons c cs ih =>
    intro rest fa recAcc recs
    have h4 := hf c (List.mem_cons_self c cs)
    rw [List.cons_append,
      csvScan_inBare_step c (cs ++ rest) fa recAcc recs
        h4.1 h4.2.1 h4.2.2.1 h4.2.2.2,
      ih (fun x hx => hf x (List.mem_cons_of_mem c hx)) rest (c :: fa)
        recAcc recs]
    have hl : (c :: cs).reverse ++ fa = cs.reverse ++ (c :: fa) := by simp
    rw [hl]

theorem csvScan_quoted_run (f : List Char)
    (hq : ∀ c ∈ f, c ≠ '"') (hn : ∀ c ∈ f, c ≠ '\n') :
    ∀ (rest fa : List Char) (recAcc : List (List Char))
      (recs : List (List (List Char))),
      rest.head? ≠ some '\n' →
      csvScan (f ++ rest) .inQuoted fa recAcc recs =
        csvScan rest .inQuoted (f.reverse ++ fa) recAcc recs := by
  induction f with
  | nil => intro rest fa recAcc recs _; simp
  | cons c cs ih =>
    intro rest fa recAcc recs hrest
    have hcr : ¬(c = '\r' ∧ (cs ++ rest).head? = some '\n') := by
      rintro ⟨rfl, hh⟩
      cases cs with
      | nil => exact hrest (by simpa using hh)
      | cons c2 cs2 =>
        have : c2 = '\n' := by simpa using hh
        exact hn c2 (by simp) this
    rw [List.cons_append,
      csvScan_inQuoted_step c (cs ++ rest) fa recAcc recs
        (hq c (List.mem_cons_self c cs)) hcr,
      ih (fun x hx => hq x (List.mem_cons_of_mem c hx))
        (fun x hx => hn x (List.mem_cons_of_mem c hx)) rest (c :: fa)
        recAcc recs hrest]
    have hl : (c :: cs).reverse ++ fa = cs.reverse ++ (c :: fa) := by simp
    rw [hl]

/-- Consuming one encoded field followed by a comma from field start:
the decoded field is exactly the one the writer was handed. -/
theorem csvScan_field_comma (f : List Char)
    (hf : ∀ c ∈ f, c ≠ ',' ∧ c ≠ '"' ∧ c ≠ '\n') :
    ∀ (rest : List Char) (recAcc : List (List Char))
      (recs : List (List (List Char))),
      csvScan (writeField f ++ ',' :: rest) .fieldStart [] recAcc recs =
        csvScan rest .fieldStart [] (f :: recAcc) recs := by
  intro rest recAcc recs
  by_cases hq : fieldNeedsQuotes f = true
  · -- quoted form
    have hq2 : ∀ c ∈ f, c ≠ '"' := fun c hc => (hf c hc).2.1
    rw [writeField, if_pos hq, escapeQuotes_of_no_quote hq2]
    have hshape : ('"' :: (f ++ ['"'])) ++ ',' :: rest =
        '"' :: (f ++ '"' :: ',' :: rest) := by simp
    rw [hshape, csvScan_fieldStart_quote,
      csvScan_quoted_run f hq2 (fun c hc => (hf c hc).2.2) ('"' :: ',' :: rest)
        [] recAcc recs (by simp)]
    rw [List.append_nil, csvScan_inQuoted_close_comma, List.reverse_reverse]
  · -- bare form
    have hclean := fieldNeedsQuotes_false_clean (Bool.eq_false_iff.mpr hq)
    rw [writeField, if_neg hq]
    cases f with
    | nil => rw [List.nil_append, csvScan_fieldStart_comma]
    | cons c cs =>
      have h4 := hclean c (List.mem_cons_self c cs)
      rw [List.cons_append,
        csvScan_fieldStart_step c (cs ++ ',' :: rest) [] recAcc recs
          h4.1 h4.2.1 h4.2.2.1 h4.2.2.2,
        csvScan_bare_run cs
          (fun x hx => hclean x (List.mem_cons_of_mem c hx)) (',' :: rest)
          [c] recAcc recs,
        csvScan_inBare_comma]
      have hl : (cs.reverse ++ [c]).reverse = c :: cs := by simp
      rw [hl]

/-- Consuming the final encoded field of a record and its line feed. -/
theorem csvScan_field_newline (f : List Char)
    (hf : ∀ c ∈ f, c ≠ ',' ∧ c ≠ '"' ∧ c ≠ '\n') :
    ∀ (rest g : List Char) (recAcc : List (List Char))
      (recs : List (List (List Char))),
      csvScan (writeField f ++ '\n' :: rest) .fieldStart [] (g :: recAcc)
          recs =
        csvScan rest .fieldStart [] []
          ((f :: g :: recAcc).reverse :: recs) := by
  intro rest g recAcc recs
  by_cases hq : fieldNeedsQuotes f = true
  · have hq2 : ∀ c ∈ f, c ≠ '"' := fun c hc => (hf c hc).2.1
    rw [writeField, if_pos hq, escapeQuotes_of_no_quote hq2]
    have hshape : ('"' :: (f ++ ['"'])) ++ '\n' :: rest =
        '"' :: (f ++ '"' :: '\n' :: rest) := by simp
    rw [hshape, csvScan_fieldStart_quote,
      csvScan_quoted_run f hq2 (fun c hc => (hf c hc).2.2)
        ('"' :: '\n' :: rest) [] (g :: recAcc) recs (by simp)]
    rw [List.append_nil, csvScan_inQuoted_close_newline,
      List.reverse_reverse]
  · have hclean := fieldNeedsQuotes_false_clean (Bool.eq_false_iff.mpr hq)
    rw [writeField, if_neg hq]
    cases f with
    | nil => rw [List.nil_append, csvScan_fieldStart_newline_cons]
    | cons c cs =>
      have h4 := hclean c (List.mem_cons_self c cs)
      rw [List.cons_append,
        csvScan_fieldStart_step c (cs ++ '\n' :: rest) [] (g :: recAcc)
          recs h4.1 h4.2.1 h4.2.2.1 h4.2.2.2,
        csvScan_bare_run cs
          (fun x hx => hclean x (List.mem_cons_of_mem c hx)) ('\n' :: rest)
          [c] (g :: recAcc) recs,
        csvScan_inBare_newline]
      have hl : (cs.reverse ++ [c]).reverse = c :: cs := by simp
      rw [hl]

/-- The characters of an `itoa` field carry none of the CSV specials. -/
theorem itoa_clean (z : Int) :
    ∀ c ∈ itoa z, c ≠ ',' ∧ c ≠ '"' ∧ c ≠ '\n' := by
  intro c hc
  rcases itoa_mem hc with hb | hb
  · refine ⟨?_, ?_, ?_⟩ <;> (rintro rfl; revert hb; decide)
  · subst hb; exact ⟨by decide, by decide, by decide⟩

/-- Consuming one whole encoded `iid,headSHA` record. -/
theorem csvScan_writeRecord (iid : Int) (sha : List Char)
    (hsha : ∀ c ∈ sha, c ≠ ',' ∧ c ≠ '"' ∧ c ≠ '\n') :
    ∀ (rest : List Char) (recs : List (List (List Char))),
      csvScan (writeRecord [itoa iid, sha] ++ rest) .fieldStart [] [] recs =
        csvScan rest .fieldStart [] [] ([itoa iid, sha] :: recs) := by
  intro rest recs
  have hshape : writeRecord [itoa iid, sha] ++ rest =
      writeField (itoa iid) ++ ',' :: (writeField sha ++ '\n' :: rest) := by
    simp [writeRecord, writeRecordFields]
  rw [hshape, csvScan_field_comma (itoa iid) (itoa_clean iid),
    csvScan_field_newline sha hsha]
  rfl

/-- Scanning a whole written file appends its records to the output. -/
theorem csvScan_csvWrite (rows : List (Int × List Char))
    (h : ∀ p ∈ rows, ∀ c ∈ p.2, c ≠ ',' ∧ c ≠ '"' ∧ c ≠ '\n') :
    ∀ recs : List (List (List Char)),
      csvScan ((rows.map (fun p => writeRecord [itoa p.1, p.2])).flatten)
          .fieldStart [] [] recs =
        .ok (recs.reverse ++ rows.map (fun p => [itoa p.1, p.2])) := by
  induction rows with
  | nil => intro recs; simp [csvScan]
  | cons p ps ih =>
    intro recs
    have hmap :
        (((p :: ps).map (fun q => writeRecord [itoa q.1, q.2])).flatten :
          List Char) =
        writeRecord [itoa p.1, p.2] ++
          (ps.map (fun q => writeRecord [itoa q.1, q.2])).flatten := by
      simp
    rw [hmap, csvScan_writeRecord p.1 p.2 (h p (List.mem_cons_self p ps)),
      ih (fun q hq => h q (List.mem_cons_of_mem p hq))]
    simp

/-- Reading back the written file recovers the written records. -/
theorem csvReadAll_write (refs : List MergeRequestRef)
    (hsha : ∀ r ∈ refs, ∀ c ∈ r.headSHA.data, c ≠ ',' ∧ c ≠ '"' ∧ c ≠ '\n') :
    csvReadAll (writeRefsToFile refs) =
      .ok (refs.map (fun r => [itoa r.iid, r.headSHA.data])) := by
  have hw : writeRefsToFile refs =
      ((refs.map (fun r => (r.iid, r.headSHA.data))).map
        (fun p => writeRecord [itoa p.1, p.2])).flatten := by
    simp [writeRefsToFile, csvWrite, List.map_map]
    rfl
  have hscan := csvScan_csvWrite (refs.map (fun r => (r.iid, r.headSHA.data)))
      (by
        intro p hp
        rcases List.mem_map.mp hp with ⟨r, hr, rfl⟩
        exact hsha r hr) []
  rw [csvReadAll, hw, hscan]
  simp only [List.reverse_nil, List.nil_append]
  have hmm : (refs.map (fun r => (r.iid, r.headSHA.data))).map
      (fun p => [itoa p.1, p.2]) =
      refs.map (fun r => [itoa r.iid, r.headSHA.data]) := by
    rw [List.map_map]; rfl
  rw [hmm]
  cases refs with
  | nil => rfl
  | cons r0 rs =>
    simp only [List.map_cons]
    rw [if_pos]
    rw [List.all_eq_true]
    intro x hx
    rcases List.mem_map.mp hx with ⟨q, _hq, rfl⟩
    rfl

/-- Decoding the records the writer produces rebuilds each ref with a
zero `ID`, the written `iid` and the written `headSHA`. -/
theorem refsFromRecords_write (refs : List MergeRequestRef) :
    ∀ i : Nat,
      refsFromRecords i (refs.map (fun r => [itoa r.iid, r.headSHA.data])) =
        .ok (refs.map
          (fun r => { id := 0, iid := r.iid, headSHA := r.headSHA })) := by
  induction refs with
  | nil => intro i; rfl
  | cons r rs ih =>
    intro i
    simp only [List.map_cons, refsFromRecords, goAtoiL_itoa, ih (i + 1)]

/-- C8: for refs whose `headSHA` holds no comma, quote or line feed,
encoding with `WriteRefsToFile` and decoding with `ReadRefsFromFile`
yields exactly the same number of records, equal to the input in
`{iid, headSHA}` and in the same order; the encoded file is one line per
record, two comma-separated fields in the order `iid,headSHA`, no header
row, a line feed after every record. -/
theorem writeRefs_readRefs_roundtrip (refs : List MergeRequestRef)
    (hsha : ∀ r ∈ refs, ∀ c ∈ r.headSHA.data, c ≠ ',' ∧ c ≠ '"' ∧ c ≠ '\n') :
    readRefsFromFile (writeRefsToFile refs) =
      .ok (refs.map
        (fun r => { id := 0, iid := r.iid, headSHA := r.headSHA })) ∧
    writeRefsToFile refs =
      (refs.map (fun r =>
        itoa r.iid ++ ',' :: (writeField r.headSHA.data ++ ['\n']))).flatten := by
  constructor
  · rw [readRefsFromFile, csvReadAll_write refs hsha]
    exact refsFromRecords_write refs 0
  · rw [writeRefsToFile, csvWrite, List.map_map]
    have hf : (writeRecord ∘ fun r : MergeRequestRef =>
        [itoa r.iid, r.headSHA.data]) =
        fun r => itoa r.iid ++ ',' :: (writeField r.headSHA.data ++ ['\n']) := by
      funext r
      simp [Function.comp, writeRecord, writeRecordFields, writeField_itoa]
    rw [hf]

/-- Witness for C8 at two concrete records. -/
theorem writeRefs_readRefs_roundtrip_witness :
    readRefsFromFile
        (writeRefsToFile [{ id := 5, iid := 42, headSHA := "abc123" },
          { id := 6, iid := 7, headSHA := "deadbeef" }]) =
      .ok [{ id := 0, iid := 42, headSHA := "abc123" },
        { id := 0, iid := 7, headSHA := "deadbeef" }] :=
  (writeRefs_readRefs_roundtrip
    [{ id := 5, iid := 42, headSHA := "abc123" },
      { id := 6, iid := 7, headSHA := "deadbeef" }] (by decide)).1

/-- Any ref list the decoder produces carries only zero `ID`s. -/
theorem refsFromRecords_id_zero :
    ∀ (recs : List (List (List Char))) (i : Nat)
      (refs : List MergeRequestRef),
      refsFromRecords i recs = .ok refs → ∀ r ∈ refs, r.id = 0 := by
  intro recs
  induction recs with
  | nil =>
    intro i refs h r hr
    simp only [refsFromRecords, Except.ok.injEq] at h
    subst h
    simp at hr
  | cons rcd rest ih =>
    intro i refs h r hr
    rcases rcd with _ | ⟨f0, rest0⟩
    · simp [refsFromRecords] at h
    · rcases rest0 with _ | ⟨f1, rest1⟩
      · simp [refsFromRecords] at h
      · rcases rest1 with _ | ⟨f2, rest2⟩
        · cases hat : goAtoiL f0 with
          | none => simp [refsFromRecords, hat] at h
          | some iid =>
            cases hrec : refsFromRecords (i + 1) rest with
            | error e => simp [refsFromRecords, hat, hrec] at h
            | ok rrefs =>
              simp only [refsFromRecords, hat, hrec, Except.ok.injEq] at h
              subst h
              rcases List.mem_cons.mp hr with h1 | h1
              · subst h1; rfl
              · exact ih (i + 1) rrefs hrec r h1
        · simp [refsFromRecords] at h

/-- C10: `ReadRefsFromFile` never populates the `ID` field: every ref it
returns has `ID = 0`, whatever the input file; in particular the
encode-then-decode round trip maps every record to one with `ID = 0`,
so a nonzero platform-internal id is never preserved. -/
theorem readRefs_id_always_zero :
    (∀ (content : List Char) (refs : List MergeRequestRef),
        readRefsFromFile content = .ok refs → ∀ r ∈ refs, r.id = 0) ∧
    (∀ (refs out : List MergeRequestRef),
        readRefsFromFile (writeRefsToFile refs) = .ok out →
        ∀ r ∈ out, r.id = 0) := by
  have hmain : ∀ (content : List Char) (refs : List MergeRequestRef),
      readRefsFromFile content = .ok refs → ∀ r ∈ refs, r.id = 0 := by
    intro content refs h
    rw [readRefsFromFile] at h
    cases hra : csvReadAll content with
    | error e => rw [hra] at h; simp at h
    | ok records =>
      rw [hra] at h
      exact refsFromRecords_id_zero records 0 refs h
  exact ⟨hmain, fun refs out h => hmain _ out h⟩

/-- Witness for C10: the decoder output of a two-line file has zero ids,
even though the encoder input had nonzero ids. -/
theorem readRefs_id_always_zero_witness :
    ∀ r ∈ [({ id := 0, iid := 12, headSHA := "abc" } : MergeRequestRef)],
      r.id = 0 :=
  readRefs_id_always_zero.1 ("12,abc\n").data
    [{ id := 0, iid := 12, headSHA := "abc" }] (by rfl)

/-! ## Paginated fetch loop

Models `FetchMergeRequestRefs` (client.go lines 146-207).  The server is
modelled by the sequence of listing responses it returns (consumed one
per loop iteration) and a per-iid detail lookup.  The governor calls
interleaved in the source only pace requests and feed the governor; they
carry no data into this loop, so the trace here records the requests,
the items iterated, the sink calls and the result. -/

/-- The fields of a listing summary item the loop reads (`mr.ID`,
`mr.IID`). -/
structure MRSummary where
  id : Int
  iid : Int
deriving DecidableEq, Repr

/-- Diff boundary of a detail record; the loop reads only `HeadSha`. -/
structure DiffRefs where
  headSha : String
deriving DecidableEq, Repr

/-- The detail record `GetMergeRequest` returns: `id`/`iid` identify the
merge request it describes; the loop reads only `diffRefs.headSha`. -/
structure MRDetail where
  id : Int
  iid : Int
  diffRefs : DiffRefs
deriving DecidableEq, Repr

/-- One listing response: the page's items and `resp.NextPage` (0 when no
further page exists). -/
structure ListResponse where
  mrs : List MRSummary
  nextPage : Nat
deriving DecidableEq, Repr

/-- `gitlab.ListOptions`, the fields the loop sets. -/
structure ListOptions where
  perPage : Nat
  page : Nat
deriving DecidableEq, Repr

/-- `gitlab.ListProjectMergeRequestsOptions` as used: pagination plus the
state filter. -/
structure ListMROptions where
  listOptions : ListOptions
  state : Option String
deriving DecidableEq, Repr

/-- The options `FetchMergeRequestRefs` builds (client.go lines 148-153):
page size 100, state filter selecting all states, page initially unset. -/
def initialListOptions : ListMROptions :=
  { listOptions := { perPage := 100, page := 0 }, state := some "all" }

/-- The environment of one run: the per-iid detail lookup and the sink
(`none` = success, `some e` = the error the sink returned). -/
structure FetchEnv where
  detail : Int → Except String MRDetail
  processor : MergeRequestRef → Option String

/-- Everything one run produces: the listing requests issued, the summary
items iterated, the sink invocations in order, and the final result. -/
structure FetchTrace where
  listRequests : List ListMROptions
  visited : List MRSummary
  sink : List MergeRequestRef
  result : Except String Unit
deriving Repr

/-- The inner per-item loop over one page (client.go lines 172-197):
the items iterated, the sink calls made, and the error that aborted the
page, if any. -/
def processPage (env : FetchEnv) :
    List MRSummary → List MRSummary × List MergeRequestRef × Option String
  | [] => ([], [], none)
  | mr :: rest =>
    match env.detail mr.iid with
    | .error e =>
      ([mr], [], some ("failed to fetch merge request " ++
        String.mk (itoa mr.iid) ++ ": " ++ e))
    | .ok d =>
      if d.diffRefs.headSha ≠ "" then
        let ref : MergeRequestRef :=
          { id := mr.id, iid := mr.iid, headSHA := d.diffRefs.headSha }
        match env.processor ref with
        | some e =>
          ([mr], [ref], some ("failed to process merge request " ++
            String.mk (itoa mr.iid) ++ ": " ++ e))
        | none =>
          let t := processPage env rest
          (mr :: t.1, ref :: t.2.1, t.2.2)
      else
        let t := processPage env rest
        (mr :: t.1, t.2.1, t.2.2)

/-- The pagination loop (client.go lines 157-204), driven by the listing
responses the server returns, one per iteration; `opts` carries the page
cursor.  When the loop would issue another request but the supplied
response list is exhausted, the trace ends with a distinguished error (a
real server always answers; theorems about complete runs supply a
response list whose consumed part ends in a zero cursor). -/
def fetchLoop (env : FetchEnv) (opts : ListMROptions) :
    List (Except String ListResponse) → FetchTrace
  | [] =>
    { listRequests := [], visited := [], sink := [],
      result := .error "no further listing response supplied" }
  | r :: rest =>
    match r with
    | .error e =>
      { listRequests := [opts], visited := [], sink := [],
        result := .error ("failed to fetch merge requests: " ++ e) }
    | .ok resp =>
      match processPage env resp.mrs with
      | (vs, ss, some e) =>
        { listRequests := [opts], visited := vs, sink := ss,
          result := .error e }
      | (vs, ss, none) =>
        if resp.nextPage = 0 then
          { listRequests := [opts], visited := vs, sink := ss,
            result := .ok () }
        else
          let t := fetchLoop env
            { opts with listOptions :=
                { opts.listOptions with page := resp.nextPage } } rest
          { listRequests := opts :: t.listRequests,
            visited := vs ++ t.visited, sink := ss ++ t.sink,
            result := t.result }

/-- `FetchMergeRequestRefs`: the loop started on the options the source
builds. -/
def FetchMergeRequestRefs (env : FetchEnv)
    (responses : List (Except String ListResponse)) : FetchTrace :=
  fetchLoop env initialListOptions responses

/-- The ref the loop hands the sink for a summary item, if any: `none`
when the detail lookup fails or the head hash is empty. -/
def emittedRef (env : FetchEnv) (mr : MRSummary) : Option MergeRequestRef :=
  match env.detail mr.iid with
  | .error _ => none
  | .ok d =>
    if d.diffRefs.headSha ≠ "" then
      some { id := mr.id, iid := mr.iid, headSHA := d.diffRefs.headSha }
    else none

/-- A summary item whose detail lookup and (when eligible) sink call
succeed. -/
def itemClean (env : FetchEnv) (mr : MRSummary) : Prop :=
  match env.detail mr.iid with
  | .error _ => False
  | .ok d =>
    d.diffRefs.headSha ≠ "" →
      env.processor
        { id := mr.id, iid := mr.iid, headSHA := d.diffRefs.headSha } = none

/-- The cursor update the loop performs after a page. -/
def advOpts (opts : ListMROptions) (p : ListResponse) : ListMROptions :=
  { opts with listOptions := { opts.listOptions with page := p.nextPage } }

/-- The listing requests issued while consuming a run of pages. -/
def optsChain (opts : ListMROptions) : List ListResponse → List ListMROptions
  | [] => []
  | p :: ps => opts :: optsChain (advOpts opts p) ps

/-! ## Fetch-loop lemmas -/

/-- Within one page, the sink calls are exactly the emitted refs of the
visited items, in order. -/
theorem processPage_sink_eq (env : FetchEnv) :
    ∀ mrs : List MRSummary,
      (processPage env mrs).2.1 =
        (processPage env mrs).1.filterMap (emittedRef env) := by
  intro mrs
  induction mrs with
  | nil => rfl
  | cons mr rest ih =>
    cases hd : env.detail mr.iid with
    | error e => simp [processPage, hd, emittedRef]
    | ok d =>
      by_cases hsha : d.diffRefs.headSha ≠ ""
      · cases hp : env.processor
            { id := mr.id, iid := mr.iid, headSHA := d.diffRefs.headSha } with
        | some e => simp [processPage, hd, hsha, hp, emittedRef]
        | none => simp [processPage, hd, hsha, hp, emittedRef, ih]
      · simp only [ne_eq, Decidable.not_not] at hsha
        simp [processPage, hd, hsha, emittedRef, ih]

/-- A page of clean items is processed in full, emitting exactly the
eligible refs and no error. -/
theorem processPage_clean (env : FetchEnv) :
    ∀ mrs : List MRSummary, (∀ mr ∈ mrs, itemClean env mr) →
      processPage env mrs = (mrs, mrs.filterMap (emittedRef env), none) := by
  intro mrs
  induction mrs with
  | nil => intro _; rfl
  | cons mr rest ih =>
    intro h
    have hrest := ih (fun x hx => h x (List.mem_cons_of_mem mr hx))
    cases hd : env.detail mr.iid with
    | error e =>
      have hmr := h mr (List.mem_cons_self mr rest)
      simp only [itemClean, hd] at hmr
    | ok d =>
      have hmr := h mr (List.mem_cons_self mr rest)
      simp only [itemClean, hd] at hmr
      by_cases hsha : d.diffRefs.headSha ≠ ""
      · have hp := hmr hsha
        simp [processPage, hd, hsha, hp, emittedRef, hrest]
      · simp only [ne_eq, Decidable.not_not] at hsha
        simp [processPage, hd, hsha, emittedRef, hrest]

/-- A failing detail lookup aborts the page after the clean prefix, with
the wrapped error naming the item's iid. -/
theorem processPage_detail_fail (env : FetchEnv) (mpre : List MRSummary)
    (mr : MRSummary) (mpost : List MRSummary) (e : String)
    (hpre : ∀ x ∈ mpre, itemClean env x)
    (hd : env.detail mr.iid = .error e) :
    processPage env (mpre ++ mr :: mpost) =
      (mpre ++ [mr], mpre.filterMap (emittedRef env),
        some ("failed to fetch merge request " ++ String.mk (itoa mr.iid) ++
          ": " ++ e)) := by
  induction mpre with
  | nil => simp [processPage, hd]
  | cons x xs ih =>
    have hrest := ih (fun y hy => hpre y (List.mem_cons_of_mem x hy))
    cases hdx : env.detail x.iid with
    | error e2 =>
      have hx := hpre x (List.mem_cons_self x xs)
      simp only [itemClean, hdx] at hx
    | ok d =>
      have hx := hpre x (List.mem_cons_self x xs)
      simp only [itemClean, hdx] at hx
      by_cases hsha : d.diffRefs.headSha ≠ ""
      · have hp := hx hsha
        simp [processPage, hdx, hsha, hp, emittedRef, hrest]
      · simp only [ne_eq, Decidable.not_not] at hsha
        simp [processPage, hdx, hsha, emittedRef, hrest]

/-- A failing sink call aborts the page after the clean prefix; the
failing item's ref was handed to the sink, and the wrapped error names
the item's iid. -/
theorem processPage_proc_fail (env : FetchEnv) (mpre : List MRSummary)
    (mr : MRSummary) (mpost : List MRSummary) (d : MRDetail) (e : String)
    (hpre : ∀ x ∈ mpre, itemClean env x)
    (hd : env.detail mr.iid = .ok d)
    (hsha : d.diffRefs.headSha ≠ "")
    (hp : env.processor
      { id := mr.id, iid := mr.iid, headSHA := d.diffRefs.headSha } = some e) :
    processPage env (mpre ++ mr :: mpost) =
      (mpre ++ [mr],
        mpre.filterMap (emittedRef env) ++
          [{ id := mr.id, iid := mr.iid, headSHA := d.diffRefs.headSha }],
        some ("failed to process merge request " ++ String.mk (itoa mr.iid) ++
          ": " ++ e)) := by
  induction mpre with
  | nil => simp [processPage, hd, hsha, hp]
  | cons x xs ih =>
    have hrest := ih (fun y hy => hpre y (List.mem_cons_of_mem x hy))
    cases hdx : env.detail x.iid with
    | error e2 =>
      have hx := hpre x (List.mem_cons_self x xs)
      simp only [itemClean, hdx] at hx
    | ok d2 =>
      have hx := hpre x (List.mem_cons_self x xs)
      simp only [itemClean, hdx] at hx
      by_cases hsha2 : d2.diffRefs.headSha ≠ ""
      · have hp2 := hx hsha2
        simp [processPage, hdx, hsha2, hp2, emittedRef, hrest]
      · simp only [ne_eq, Decidable.not_not] at hsha2
        simp [processPage, hdx, hsha2, emittedRef, hrest]

/-- Consuming a run of clean, non-final pages: the loop records their
requests, items and sink calls, then continues on the rest with the
advanced cursor. -/
theorem fetchLoop_clean (env : FetchEnv) :
    ∀ (pre : List ListResponse) (opts : ListMROptions)
      (rest : List (Except String ListResponse)),
      (∀ p ∈ pre, p.nextPage ≠ 0) →
      (∀ p ∈ pre, ∀ mr ∈ p.mrs, itemClean env mr) →
      fetchLoop env opts (pre.map Except.ok ++ rest) =
        { listRequests := optsChain opts pre ++
            (fetchLoop env (pre.foldl advOpts opts) rest).listRequests,
          visited := (pre.map ListResponse.mrs).flatten ++
            (fetchLoop env (pre.foldl advOpts opts) rest).visited,
          sink := ((pre.map ListResponse.mrs).flatten).filterMap
              (emittedRef env) ++
            (fetchLoop env (pre.foldl advOpts opts) rest).sink,
          result := (fetchLoop env (pre.foldl advOpts opts) rest).result } := by
  intro pre
  induction pre with
  | nil =>
    intro opts rest _ _
    simp [optsChain]
  | cons p ps ih =>
    intro opts rest hnp hclean
    have hp0 := processPage_clean env p.mrs (hclean p (List.mem_cons_self p ps))
    have hnp0 : p.nextPage ≠ 0 := hnp p (List.mem_cons_self p ps)
    have hrec := ih (advOpts opts p) rest
      (fun q hq => hnp q (List.mem_cons_of_mem p hq))
      (fun q hq => hclean q (List.mem_cons_of_mem p hq))
    simp only [List.map_cons, List.cons_append, fetchLoop, hp0,
      if_neg hnp0, List.append_eq]
    rw [show ({ opts with listOptions :=
        { opts.listOptions with page := p.nextPage } } : ListMROptions) =
      advOpts opts p from rfl, hrec]
    simp [optsChain, List.filterMap_append]

/-- Across a whole run, the sink trace is the emitted refs of the
visited items, in order. -/
theorem fetchLoop_sink_eq (env : FetchEnv) :
    ∀ (resps : List (Except String ListResponse)) (opts : ListMROptions),
      (fetchLoop env opts resps).sink =
        (fetchLoop env opts resps).visited.filterMap (emittedRef env) := by
  intro resps
  induction resps with
  | nil => intro opts; rfl
  | cons r rest ih =>
    intro opts
    cases r with
    | error e => simp [fetchLoop]
    | ok resp =>
      have hsink := processPage_sink_eq env resp.mrs
      rcases hpp : processPage env resp.mrs with ⟨vs, ss, err⟩
      rw [hpp] at hsink
      simp only at hsink
      cases err with
      | some e => simp [fetchLoop, hpp, hsink]
      | none =>
        by_cases hnp : resp.nextPage = 0
        · simp [fetchLoop, hpp, hnp, hsink]
        · simp [fetchLoop, hpp, hnp, hsink, ih, List.filterMap_append]

/-- Every listing request of a run keeps the page size and state filter
of the options the loop started with. -/
theorem fetchLoop_requests_fixed (env : FetchEnv) :
    ∀ (resps : List (Except String ListResponse)) (opts : ListMROptions),
      ∀ o ∈ (fetchLoop env opts resps).listRequests,
        o.listOptions.perPage = opts.listOptions.perPage ∧
        o.state = opts.state := by
  intro resps
  induction resps with
  | nil => intro opts o ho; simp [fetchLoop] at ho
  | cons r rest ih =>
    intro opts o ho
    cases r with
    | error e =>
      simp [fetchLoop] at ho
      subst ho; exact ⟨rfl, rfl⟩
    | ok resp =>
      rcases hpp : processPage env resp.mrs with ⟨vs, ss, err⟩
      cases err with
      | some e =>
        simp [fetchLoop, hpp] at ho
        subst ho; exact ⟨rfl, rfl⟩
      | none =>
        by_cases hnp : resp.nextPage = 0
        · simp [fetchLoop, hpp, hnp] at ho
          subst ho; exact ⟨rfl, rfl⟩
        · simp only [fetchLoop, hpp, if_neg hnp, List.mem_cons] at ho
          rcases ho with rfl | ho
          · exact ⟨rfl, rfl⟩
          · have h2 := ih (advOpts opts resp) o ho
            exact ⟨h2.1, h2.2⟩

/-- The page numbers of the requests along a clean run follow the
returned cursors. -/
theorem optsChain_map_page :
    ∀ (pre : List ListResponse) (opts : ListMROptions),
      (optsChain opts pre ++ [pre.foldl advOpts opts]).map
          (fun o => o.listOptions.page) =
        opts.listOptions.page :: pre.map ListResponse.nextPage := by
  intro pre
  induction pre with
  | nil => intro opts; rfl
  | cons p ps ih =>
    intro opts
    simp only [optsChain, List.cons_append, List.map_cons, List.foldl_cons]
    rw [ih (advOpts opts p)]
    rfl

theorem optsChain_length :
    ∀ (pre : List ListResponse) (opts : ListMROptions),
      (optsChain opts pre).length = pre.length := by
  intro pre
  induction pre with
  | nil => intro opts; rfl
  | cons p ps ih => intro opts; simp [optsChain, ih]

/-! ## Claim theorems for the fetch loop -/

/-- C3: in any run, the sink trace consists of exactly the visited items
whose detail record carries a non-empty head hash (empty-hash records
are silently skipped, detail failures emit nothing), in order; and given
that the platform's detail record describes the same merge request as
the summary item (`d.id = mr.id`, `d.iid = mr.iid`), the ref a visited
item contributes is exactly `{id, iid, headSha}` of its detail record. -/
theorem fetch_sink_iff_nonempty_hash (env : FetchEnv)
    (responses : List (Except String ListResponse))
    (hcons : ∀ mr ∈ (FetchMergeRequestRefs env responses).visited,
      ∀ d : MRDetail, env.detail mr.iid = Except.ok d →
        d.id = mr.id ∧ d.iid = mr.iid) :
    (FetchMergeRequestRefs env responses).sink =
      ((FetchMergeRequestRefs env responses).visited).filterMap
        (emittedRef env) ∧
    ∀ mr ∈ (FetchMergeRequestRefs env responses).visited,
      ∀ d : MRDetail, env.detail mr.iid = Except.ok d →
        emittedRef env mr =
          (if d.diffRefs.headSha = "" then none
           else some
             { id := d.id, iid := d.iid, headSHA := d.diffRefs.headSha }) := by
  constructor
  · exact fetchLoop_sink_eq env responses initialListOptions
  · intro mr hmr d hd
    rcases hcons mr hmr d hd with ⟨hid, hiid⟩
    simp only [emittedRef, hd]
    by_cases hsha : d.diffRefs.headSha = ""
    · simp [hsha]
    · simp [hsha, hid, hiid]

/-- Environment for the C3 witness: every detail succeeds with id 7 and
hash "h1". -/
def envC3 : FetchEnv :=
  { detail := fun i =>
      .ok { id := 7, iid := i, diffRefs := { headSha := "h1" } },
    processor := fun _ => none }

/-- Responses for the C3 witness: one page, one item, no next page. -/
def respsC3 : List (Except String ListResponse) :=
  [Except.ok { mrs := [{ id := 7, iid := 1 }], nextPage := 0 }]

/-- Witness for C3 at a concrete one-item run. -/
theorem fetch_sink_iff_nonempty_hash_witness :
    (FetchMergeRequestRefs envC3 respsC3).sink =
      ((FetchMergeRequestRefs envC3 respsC3).visited).filterMap
        (emittedRef envC3) :=
  (fetch_sink_iff_nonempty_hash envC3 respsC3 (by
    intro mr hmr d hd
    have hv : (FetchMergeRequestRefs envC3 respsC3).visited =
        [{ id := 7, iid := 1 }] := rfl
    rw [hv] at hmr
    have hmr2 : mr = { id := 7, iid := 1 } := by simpa using hmr
    simp only [envC3] at hd
    have hd2 :
        ({ id := 7, iid := mr.iid, diffRefs := { headSha := "h1" } } :
          MRDetail) = d := by
      injection hd
    subst hmr2
    rw [← hd2]
    exact ⟨rfl, rfl⟩)).1

/-- C4 (amended): any listing, detail or sink failure aborts the run at
that point with a wrapped error; detail and sink failures name the
failing item's iid, while a listing failure wraps the transport error
without naming the page; the sink calls made are exactly those for the
earlier eligible items in platform order (plus the failing call itself
for a sink failure), and none happen after the failing step. -/
theorem fetch_fail_fast (env : FetchEnv) (pre : List ListResponse)
    (hnp : ∀ p ∈ pre, p.nextPage ≠ 0)
    (hclean : ∀ p ∈ pre, ∀ mr ∈ p.mrs, itemClean env mr) :
    (∀ (e : String) (rest : List (Except String ListResponse)),
      FetchMergeRequestRefs env (pre.map Except.ok ++ .error e :: rest) =
        { listRequests := optsChain initialListOptions pre ++
            [pre.foldl advOpts initialListOptions],
          visited := (pre.map ListResponse.mrs).flatten,
          sink := ((pre.map ListResponse.mrs).flatten).filterMap
            (emittedRef env),
          result := .error ("failed to fetch merge requests: " ++ e) }) ∧
    (∀ (p : ListResponse) (mpre : List MRSummary) (mr : MRSummary)
        (mpost : List MRSummary) (e : String)
        (rest : List (Except String ListResponse)),
      p.mrs = mpre ++ mr :: mpost →
      (∀ x ∈ mpre, itemClean env x) →
      env.detail mr.iid = .error e →
      FetchMergeRequestRefs env (pre.map Except.ok ++ .ok p :: rest) =
        { listRequests := optsChain initialListOptions pre ++
            [pre.foldl advOpts initialListOptions],
          visited := (pre.map ListResponse.mrs).flatten ++ (mpre ++ [mr]),
          sink := ((pre.map ListResponse.mrs).flatten).filterMap
              (emittedRef env) ++ mpre.filterMap (emittedRef env),
          result := .error ("failed to fetch merge request " ++
            String.mk (itoa mr.iid) ++ ": " ++ e) }) ∧
    (∀ (p : ListResponse) (mpre : List MRSummary) (mr : MRSummary)
        (mpost : List MRSummary) (d : MRDetail) (e : String)
        (rest : List (Except String ListResponse)),
      p.mrs = mpre ++ mr :: mpost →
      (∀ x ∈ mpre, itemClean env x) →
      env.detail mr.iid = .ok d →
      d.diffRefs.headSha ≠ "" →
      env.processor
        { id := mr.id, iid := mr.iid, headSHA := d.diffRefs.headSha } =
        some e →
      FetchMergeRequestRefs env (pre.map Except.ok ++ .ok p :: rest) =
        { listRequests := optsChain initialListOptions pre ++
            [pre.foldl advOpts initialListOptions],
          visited := (pre.map ListResponse.mrs).flatten ++ (mpre ++ [mr]),
          sink := ((pre.map ListResponse.mrs).flatten).filterMap
              (emittedRef env) ++ (mpre.filterMap (emittedRef env) ++
            [{ id := mr.id, iid := mr.iid, headSHA := d.diffRefs.headSha }]),
          result := .error ("failed to process merge request " ++
            String.mk (itoa mr.iid) ++ ": " ++ e) }) := by
  have hbase := fetchLoop_clean env pre initialListOptions
  refine ⟨?_, ?_, ?_⟩
  · intro e rest
    rw [FetchMergeRequestRefs, hbase (.error e :: rest) hnp hclean]
    simp [fetchLoop]
  · intro p mpre mr mpost e rest hmrs hmpre hd
    rw [FetchMergeRequestRefs, hbase (.ok p :: rest) hnp hclean]
    have hpp := processPage_detail_fail env mpre mr mpost e hmpre hd
    rw [← hmrs] at hpp
    simp [fetchLoop, hpp]
  · intro p mpre mr mpost d e rest hmrs hmpre hd hsha hp
    rw [FetchMergeRequestRefs, hbase (.ok p :: rest) hnp hclean]
    have hpp := processPage_proc_fail env mpre mr mpost d e hmpre hd hsha hp
    rw [← hmrs] at hpp
    simp [fetchLoop, hpp]

/-- Environment for the C4 artifacts: all details succeed with hash "h",
the sink always succeeds. -/
def envC4 : FetchEnv :=
  { detail := fun i =>
      .ok { id := 1, iid := i, diffRefs := { headSha := "h" } },
    processor := fun _ => none }

/-- A clean page whose cursor points at page 2. -/
def pageC4 : ListResponse := { mrs := [], nextPage := 2 }

/-- Counterexample to C4 as stated: a run failing at the first listing
request and a run failing at the second return the same error, so the
listing error does not identify which page failed (item failures do name
the item's iid, but page failures carry no page identification). -/
theorem fetch_fail_fast_counterexample :
    (FetchMergeRequestRefs envC4 [.error "boom"]).result =
      (FetchMergeRequestRefs envC4 [.ok pageC4, .error "boom"]).result ∧
    (FetchMergeRequestRefs envC4 [.error "boom"]).result =
      .error ("failed to fetch merge requests: boom") ∧
    (FetchMergeRequestRefs envC4 [.error "boom"]).listRequests.length = 1 ∧
    (FetchMergeRequestRefs envC4
      [.ok pageC4, .error "boom"]).listRequests.length = 2 :=
  ⟨rfl, rfl, rfl, rfl⟩

/-- Witness for C4 (amended): a first-page listing failure aborts with
the wrapped transport error and an empty sink trace. -/
theorem fetch_fail_fast_witness :
    FetchMergeRequestRefs envC4 [Except.error "boom"] =
      { listRequests := [initialListOptions], visited := [], sink := [],
        result := .error "failed to fetch merge requests: boom" } := by
  have h := (fetch_fail_fast envC4 [] (by simp) (by simp)).1 "boom" []
  simpa [optsChain] using h

/-- C5: a complete run (clean pages, every cursor nonzero until a final
zero cursor) succeeds; it visits exactly the concatenation of the pages'
items, in order — hence every summary item exactly once when the pages
are disjoint; every listing request uses page size 100 and the
all-states filter; the page cursors requested follow the returned
next-page values starting from the unset page; and the loop stops
exactly at the zero sentinel, issuing one request per consumed page. -/
theorem fetch_full_run (env : FetchEnv) (pre : List ListResponse)
    (last : ListResponse)
    (hnp : ∀ p ∈ pre, p.nextPage ≠ 0)
    (hlast : last.nextPage = 0)
    (hclean : ∀ p ∈ pre ++ [last], ∀ mr ∈ p.mrs, itemClean env mr) :
    (FetchMergeRequestRefs env ((pre ++ [last]).map Except.ok)).result =
      .ok () ∧
    (FetchMergeRequestRefs env ((pre ++ [last]).map Except.ok)).visited =
      ((pre ++ [last]).map ListResponse.mrs).flatten ∧
    (∀ o ∈ (FetchMergeRequestRefs env
        ((pre ++ [last]).map Except.ok)).listRequests,
      o.listOptions.perPage = 100 ∧ o.state = some "all") ∧
    (FetchMergeRequestRefs env
        ((pre ++ [last]).map Except.ok)).listRequests.map
      (fun o => o.listOptions.page) = 0 :: pre.map ListResponse.nextPage ∧
    (FetchMergeRequestRefs env
        ((pre ++ [last]).map Except.ok)).listRequests.length =
      pre.length + 1 ∧
    (((pre ++ [last]).map ListResponse.mrs).flatten.Nodup →
      ∀ mr ∈ ((pre ++ [last]).map ListResponse.mrs).flatten,
        (FetchMergeRequestRefs env
          ((pre ++ [last]).map Except.ok)).visited.count mr = 1) := by
  have hsplit : (pre ++ [last]).map Except.ok =
      pre.map Except.ok ++ [(Except.ok last : Except String ListResponse)] := by
    simp
  have hpl := processPage_clean env last.mrs (hclean last (by simp))
  have hT : FetchMergeRequestRefs env ((pre ++ [last]).map Except.ok) =
      { listRequests := optsChain initialListOptions pre ++
          [pre.foldl advOpts initialListOptions],
        visited := ((pre.map ListResponse.mrs).flatten ++ last.mrs :
          List MRSummary),
        sink := ((pre.map ListResponse.mrs).flatten ++ last.mrs).filterMap
          (emittedRef env),
        result := .ok () } := by
    rw [FetchMergeRequestRefs, hsplit,
      fetchLoop_clean env pre initialListOptions _ hnp
        (fun p hp => hclean p (List.mem_append_left _ hp))]
    simp [fetchLoop, hpl, hlast, List.filterMap_append]
  have hflat : ((pre ++ [last]).map ListResponse.mrs).flatten =
      (pre.map ListResponse.mrs).flatten ++ last.mrs := by
    simp
  refine ⟨?_, ?_, ?_, ?_, ?_, ?_⟩
  · rw [hT]
  · rw [hT, hflat]
  · intro o ho
    have h2 := fetchLoop_requests_fixed env _ initialListOptions o ho
    exact ⟨h2.1, h2.2⟩
  · rw [hT]
    exact optsChain_map_page pre initialListOptions
  · rw [hT]
    simp [optsChain_length]
  · intro hnodup mr hmr
    rw [hT, hflat] at *
    exact List.count_eq_one_of_mem hnodup hmr

/-- Environment for the C5 witness. -/
def envC5 : FetchEnv :=
  { detail := fun i =>
      .ok { id := 7, iid := i, diffRefs := { headSha := "h" } },
    processor := fun _ => none }

/-- First page of the C5 witness run: one item, cursor to page 2. -/
def pageC5a : ListResponse := { mrs := [{ id := 7, iid := 1 }], nextPage := 2 }

/-- Final page of the C5 witness run: one item, zero cursor. -/
def pageC5b : ListResponse := { mrs := [{ id := 7, iid := 2 }], nextPage := 0 }

/-- Witness for C5: a two-page run ends in success and visits both items
in order. -/
theorem fetch_full_run_witness :
    (FetchMergeRequestRefs envC5
      (([pageC5a] ++ [pageC5b]).map Except.ok)).result = .ok () ∧
    (FetchMergeRequestRefs envC5
      (([pageC5a] ++ [pageC5b]).map Except.ok)).visited =
      (([pageC5a] ++ [pageC5b]).map ListResponse.mrs).flatten := by
  have h := fetch_full_run envC5 [pageC5a] pageC5b
    (by intro p hp; simp at hp; subst hp; decide)
    rfl
    (by intro p hp mr hmr; simp [itemClean, envC5])
  exact ⟨h.1, h.2.1⟩

end GlRefs
